import Mathlib

/-!
Shallow embedding of the generation engine in `src/inference.rs` of the Tera
repository: the `TextGeneration::run` decode loop and the `answer_with_context`
entry point.  External capabilities (the tokenizer, the quantized model forward
pass, the logits sampler, the repeat-penalty routine from candle) are modelled
as function-valued fields of an `Env` record; their internal state (the model's
incremental decode cache, the sampler's random stream) is threaded explicitly
through type parameters `σ` and `τ`.  Rust strings are modelled as `List Char`,
token ids (`u32`) as `Nat`, and the `f32` repeat-penalty parameter as `Rat`
(the code only tests it for equality with `1.0`).  Fallible capabilities return
`Option`; `run` returns `Except GenError`.
-/

namespace Tera

/-- Error taxonomy of `TextGeneration::run` / `answer_with_context`:
`emptyPrompt` for the bail at line 94, `missingStopToken` for the bail at
line 100, `generationFailure` for any propagated tokenizer/model/sampler
failure (`?` operators). -/
inductive GenError where
  | emptyPrompt
  | missingStopToken
  | generationFailure
deriving DecidableEq

/-- The external capabilities consumed by the generation engine, with model
state `σ` (incremental decode cache of `QMixFormer`) and sampler state `τ`
(the seeded random stream of `LogitsProcessor`).
`encode` is `tokenizer.encode(prompt, true)` followed by `get_ids`;
`getVocab` is `tokenizer.get_vocab(true).get(key)`;
`forward` is `self.model.forward(input)` on a window of token ids;
`narrow` is the `to_dtype(DType::F32)` narrowing of the raw logits;
`applyRepeatPenalty` is `candle_transformers::utils::apply_repeat_penalty`;
`sample` is `self.logits_processor.sample(&logits)`;
`decode` is `tokenizer.decode(&[next_token], true)` on a single token. -/
structure Env (σ τ : Type) where
  encode : List Char → Option (List Nat)
  getVocab : List Char → Option Nat
  forward : σ → List Nat → Option (List Int × σ)
  narrow : List Int → List Int
  applyRepeatPenalty : List Int → Rat → List Nat → Option (List Int)
  sample : τ → List Int → Option (Nat × τ)
  decode : Nat → Option (List Char)

/-- The vocabulary key looked up at line 98 of `inference.rs`. -/
def endOfTextKey : List Char := "<|endoftext|>".data

/-- The mutable locals of one `run`: the growing token sequence, the
`generated_tokens` counter, the `response` buffer, and the two capability
states. -/
structure LoopState (σ τ : Type) where
  tokens : List Nat
  generated : Nat
  response : List Char
  mstate : σ
  sstate : τ

/-- Lines 107-108: `context_size = if index > 0 { 1 } else { tokens.len() }`
and `ctxt = &tokens[tokens.len().saturating_sub(context_size)..]`.
`Nat` subtraction is saturating, matching `saturating_sub`. -/
def contextWindow (index : Nat) (tokens : List Nat) : List Nat :=
  let context_size := if index > 0 then 1 else tokens.length
  tokens.drop (tokens.length - context_size)

/-- Lines 112-121: the repeat-penalty branch.  When `repeat_penalty == 1.0`
the logits pass through unchanged; otherwise the trailing `repeat_last_n`
tokens (`start_at = tokens.len().saturating_sub(repeat_last_n)`) are fed to
`apply_repeat_penalty`, which may fail. -/
def penalize {σ τ : Type} (env : Env σ τ) (repeat_penalty : Rat)
    (repeat_last_n : Nat) (tokens : List Nat) (logits : List Int) :
    Option (List Int) :=
  if repeat_penalty = 1 then some logits
  else env.applyRepeatPenalty logits repeat_penalty
    (tokens.drop (tokens.length - repeat_last_n))

/-- Line 126: `next_token == eos_token || next_token == 198`.  The `198`
sentinel is a hardcoded literal, not a configuration value. -/
def isStopToken (eos_token next_token : Nat) : Bool :=
  next_token == eos_token || next_token == 198

/-- One iteration of the `for index in 0..sample_len` loop (lines 106-131):
select the context window, run the model forward pass, narrow to f32, apply
the repeat penalty, sample `next_token`, push it and bump the counter; if it
is a stop token signal termination (`true`) without decoding it, otherwise
decode it and append the fragment to the response. -/
def step {σ τ : Type} (env : Env σ τ) (repeat_penalty : Rat)
    (repeat_last_n eos_token index : Nat) (s : LoopState σ τ) :
    Option (LoopState σ τ × Bool) :=
  (env.forward s.mstate (contextWindow index s.tokens)).bind fun fw =>
    (penalize env repeat_penalty repeat_last_n s.tokens (env.narrow fw.1)).bind
      fun logits =>
      (env.sample s.sstate logits).bind fun sa =>
        if isStopToken eos_token sa.1 then
          some (⟨s.tokens ++ [sa.1], s.generated + 1, s.response, fw.2, sa.2⟩,
            true)
        else
          (env.decode sa.1).map fun tok =>
            (⟨s.tokens ++ [sa.1], s.generated + 1, s.response ++ tok, fw.2,
              sa.2⟩, false)

/-- The loop itself: at most `fuel` iterations starting at `index`; a step
returning `true` breaks out, a capability failure aborts the whole run. -/
def runLoop {σ τ : Type} (env : Env σ τ) (repeat_penalty : Rat)
    (repeat_last_n eos_token : Nat) :
    Nat → Nat → LoopState σ τ → Option (LoopState σ τ)
  | 0, _, s => some s
  | fuel + 1, index, s =>
    match step env repeat_penalty repeat_last_n eos_token index s with
    | none => none
    | some (s', true) => some s'
    | some (s', false) =>
      runLoop env repeat_penalty repeat_last_n eos_token fuel (index + 1) s'

/-- Rust's `str::trim`: drop whitespace from both ends. -/
def rustTrim (s : List Char) : List Char :=
  ((s.dropWhile Char.isWhitespace).reverse.dropWhile Char.isWhitespace).reverse

/-- `TextGeneration::run` (lines 90-139): encode the prompt, bail on an empty
encoding, resolve the end-of-text id, run the decode loop for at most
`sample_len` iterations, and return the trimmed response.  The second
component of the result is the `generated_tokens` counter that the source
logs on completion. -/
def run {σ τ : Type} (env : Env σ τ) (m0 : σ) (s0 : τ)
    (repeat_penalty : Rat) (repeat_last_n : Nat) (prompt : List Char)
    (sample_len : Nat) : Except GenError (List Char × Nat) :=
  match env.encode prompt with
  | none => .error .generationFailure
  | some tokens =>
    if tokens.isEmpty then .error .emptyPrompt
    else
      match env.getVocab endOfTextKey with
      | none => .error .missingStopToken
      | some eos_token =>
        match runLoop env repeat_penalty repeat_last_n eos_token sample_len 0
            ⟨tokens, 0, [], m0, s0⟩ with
        | none => .error .generationFailure
        | some s => .ok (rustTrim s.response, s.generated)

/-- Spec-side predicate for claim C8: a string (as a character list) has no
leading and no trailing whitespace. -/
def hasNoEdgeWhitespace (l : List Char) : Bool :=
  (l.head?.all fun c => !c.isWhitespace) &&
    (l.getLast?.all fun c => !c.isWhitespace)

/-- One retrieved context snippet (`database::VectorIndex` as used here):
a content chunk and its metadata, both opaque to the engine. -/
structure VectorIndex where
  content_chunk : List Char
  metadata : List Char

/-- The literal returned at line 144 when no references are supplied. -/
def noContentMessage : List Char :=
  ("Non of your saved content is relevant to this question. " ++
    "I can only answer based on your saved content.").data

/-- `answer_with_context` (lines 142-178).  The prompt assembly (the
`format!` template with the JSON-serialized references and the chrono date)
uses external crates and is modelled as the `assemble` capability parameter;
the fixed seed 398752958, temperature 0.3 and absent top-p live inside the
sampler state `s0`.  The hyperparameters visible to the engine are passed
as in the source: repeat penalty 1.1, repeat window 64, 400 new tokens. -/
def answer_with_context {σ τ : Type} (env : Env σ τ) (m0 : σ) (s0 : τ)
    (assemble : List Char → List VectorIndex → List Char)
    (query : List Char) (references : List VectorIndex) :
    Except GenError (List Char) :=
  if references.isEmpty then .ok noContentMessage
  else
    match run env m0 s0 (1.1 : Rat) 64 (assemble query references) 400 with
    | .error e => .error e
    | .ok (response, _) => .ok response

/-! Concrete capability environments used to instantiate the theorems below
on closed inputs.  `testEnv` samples the non-stop token 5 at every step;
variants override one capability at a time. -/

/-- A deterministic environment over trivial states: the prompt encodes to
`[10, 11]`, the vocabulary resolves every key to 7, the model always emits
the raw logits `[3, 1, 2]`, the sampler always picks token 5, and every
token decodes to the fragment `"a"`. -/
def testEnv : Env Unit Unit where
  encode := fun _ => some [10, 11]
  getVocab := fun _ => some 7
  forward := fun _ _ => some ([3, 1, 2], ())
  narrow := fun l => l
  applyRepeatPenalty := fun l _ _ => some l
  sample := fun _ _ => some (5, ())
  decode := fun _ => some ['a']

/-- Like `testEnv` but the sampler immediately picks the end-of-text id 7. -/
def stopEnv : Env Unit Unit := { testEnv with sample := fun _ _ => some (7, ()) }

/-- Like `testEnv` but the sampler picks the hardcoded sentinel 198. -/
def nlEnv : Env Unit Unit := { testEnv with sample := fun _ _ => some (198, ()) }

/-- Like `testEnv` but the prompt encodes to the empty token sequence. -/
def emptyEncodeEnv : Env Unit Unit := { testEnv with encode := fun _ => some [] }

/-- Like `testEnv` but the vocabulary lookup always misses. -/
def noVocabEnv : Env Unit Unit := { testEnv with getVocab := fun _ => none }

/-! Helper lemmas shared by the claim theorems. -/

/-- Dropping all but the last element of a list leaves exactly its last
element. -/
theorem drop_length_sub_one {α : Type} (ts : List α) (t : α)
    (h : ts.getLast? = some t) : ts.drop (ts.length - 1) = [t] := by
  induction ts with
  | nil => cases h
  | cons a l ih =>
    cases l with
    | nil =>
      simp only [List.getLast?_singleton, Option.some.injEq] at h
      subst h
      rfl
    | cons b m =>
      rw [List.getLast?_cons_cons] at h
      have ih' := ih h
      simp only [List.length_cons, Nat.add_sub_cancel] at ih' ⊢
      rw [List.drop_succ_cons]
      exact ih'

/-- The head of `dropWhile p l`, when it exists, fails `p`. -/
theorem head?_dropWhile_eq_false {α : Type} (p : α → Bool) (l : List α)
    (c : α) (h : (l.dropWhile p).head? = some c) : p c = false := by
  induction l with
  | nil => cases h
  | cons a t ih =>
    rw [List.dropWhile_cons] at h
    by_cases hp : p a
    · rw [if_pos hp] at h
      exact ih h
    · rw [if_neg hp] at h
      simp only [List.head?_cons, Option.some.injEq] at h
      subst h
      exact Bool.not_eq_true _ |>.mp hp

/-- Anatomy of a successful `step`: it appends exactly one token, bumps the
counter by exactly one, and when it reports a stop it leaves the response
buffer untouched. -/
theorem step_some {σ τ : Type} (env : Env σ τ) (rp : Rat) (rn eos index : Nat)
    (s s' : LoopState σ τ) (b : Bool)
    (h : step env rp rn eos index s = some (s', b)) :
    s'.generated = s.generated + 1 ∧ (∃ t, s'.tokens = s.tokens ++ [t]) ∧
      (b = true → s'.response = s.response) := by
  unfold step at h
  rw [Option.bind_eq_some] at h
  obtain ⟨fw, _, h⟩ := h
  rw [Option.bind_eq_some] at h
  obtain ⟨logits, _, h⟩ := h
  rw [Option.bind_eq_some] at h
  obtain ⟨sa, _, h⟩ := h
  by_cases hstop : isStopToken eos sa.1 = true
  · rw [if_pos hstop, Option.some.injEq, Prod.mk.injEq] at h
    obtain ⟨hs, _⟩ := h
    subst hs
    exact ⟨rfl, ⟨sa.1, rfl⟩, fun _ => rfl⟩
  · rw [if_neg hstop, Option.map_eq_some'] at h
    obtain ⟨tok, _, h⟩ := h
    rw [Prod.mk.injEq] at h
    obtain ⟨hs, hb⟩ := h
    subst hs
    exact ⟨rfl, ⟨sa.1, rfl⟩, fun hb' => absurd (hb' ▸ hb) (by simp)⟩

/-- Anatomy of a successful `runLoop`: the counter grows by at most the fuel
and the token sequence only ever gains a suffix. -/
theorem runLoop_some {σ τ : Type} (env : Env σ τ) (rp : Rat) (rn eos : Nat) :
    ∀ (fuel index : Nat) (s s' : LoopState σ τ),
      runLoop env rp rn eos fuel index s = some s' →
      s'.generated ≤ s.generated + fuel ∧ ∃ ext, s'.tokens = s.tokens ++ ext := by
  intro fuel
  induction fuel with
  | zero =>
    intro index s s' h
    unfold runLoop at h
    rw [Option.some.injEq] at h
    subst h
    exact ⟨Nat.le_refl _, [], by simp⟩
  | succ n ih =>
    intro index s s' h
    unfold runLoop at h
    cases hst : step env rp rn eos index s with
    | none => rw [hst] at h; cases h
    | some p =>
      obtain ⟨s₁, b⟩ := p
      rw [hst] at h
      obtain ⟨hgen, ⟨t, htok⟩, _⟩ := step_some env rp rn eos index s s₁ b hst
      cases b with
      | true =>
        simp only [Option.some.injEq] at h
        subst h
        refine ⟨?_, ⟨[t], htok⟩⟩
        rw [hgen]
        exact Nat.add_le_add_left (Nat.le_add_left 1 n) s.generated
      | false =>
        simp only at h
        obtain ⟨hgen', ext, htok'⟩ := ih (index + 1) s₁ s' h
        refine ⟨?_, ⟨t :: ext, by rw [htok', htok, List.append_assoc]; rfl⟩⟩
        calc s'.generated ≤ s₁.generated + n := hgen'
          _ = s.generated + 1 + n := by rw [hgen]
          _ = s.generated + (n + 1) := by omega

/-- A nonempty `dropWhile` keeps the last element of its input. -/
theorem getLast?_dropWhile {α : Type} (p : α → Bool) (l : List α) (c : α)
    (h : (l.dropWhile p).getLast? = some c) : l.getLast? = some c := by
  induction l with
  | nil => cases h
  | cons a t ih =>
    rw [List.dropWhile_cons] at h
    by_cases hp : p a
    · rw [if_pos hp] at h
      cases t with
      | nil => cases h
      | cons b m =>
        rw [List.getLast?_cons_cons]
        exact ih h
    · rw [if_neg hp] at h
      exact h

/-- The first character of a trimmed string is not whitespace. -/
theorem rustTrim_head (s : List Char) (c : Char)
    (h : (rustTrim s).head? = some c) : c.isWhitespace = false := by
  unfold rustTrim at h
  rw [List.head?_reverse] at h
  have h2 := getLast?_dropWhile _ _ _ h
  rw [List.getLast?_reverse] at h2
  exact head?_dropWhile_eq_false _ _ _ h2

/-- The last character of a trimmed string is not whitespace. -/
theorem rustTrim_last (s : List Char) (c : Char)
    (h : (rustTrim s).getLast? = some c) : c.isWhitespace = false := by
  unfold rustTrim at h
  rw [List.getLast?_reverse] at h
  exact head?_dropWhile_eq_false _ _ _ h

/-- `rustTrim` output always satisfies the edge-whitespace predicate. -/
theorem rustTrim_hasNoEdge (s : List Char) :
    hasNoEdgeWhitespace (rustTrim s) = true := by
  unfold hasNoEdgeWhitespace
  rw [Bool.and_eq_true]
  refine ⟨?_, ?_⟩
  · cases hh : (rustTrim s).head? with
    | none => rfl
    | some c => simpa using rustTrim_head s c hh
  · cases hh : (rustTrim s).getLast? with
    | none => rfl
    | some c => simpa using rustTrim_last s c hh

/-! The claim theorems. -/

/-- C1: the token window submitted to the model capability (the `ctxt` slice
that `step` passes to `forward`) is the entire current token sequence when
`index == 0`, and exactly the single most recently appended token when
`index > 0`. -/
theorem contextWindow_spec (index : Nat) (ts : List Nat) (t : Nat)
    (hpos : 0 < index) (hlast : ts.getLast? = some t) :
    contextWindow 0 ts = ts ∧ contextWindow index ts = [t] := by
  constructor
  · simp [contextWindow]
  · simp only [contextWindow, gt_iff_lt, if_pos hpos]
    exact drop_length_sub_one ts t hlast

/-- C1 witness: on the sequence `[10, 11]`, step 0 submits the whole
sequence and step 1 submits only the last token. -/
theorem contextWindow_spec_witness :
    contextWindow 0 [10, 11] = [10, 11] ∧ contextWindow 1 [10, 11] = [11] :=
  ⟨(contextWindow_spec 1 [10, 11] 11 (by decide) (by rfl)).1,
   (contextWindow_spec 1 [10, 11] 11 (by decide) (by rfl)).2⟩

/-- C2: `run` generates at most `sample_len` tokens — the loop is fuel-bounded
by `sample_len` by construction, and the returned `generated_tokens` counter
never exceeds `sample_len`. -/
theorem run_generated_le {σ τ : Type} (env : Env σ τ) (m0 : σ) (s0 : τ)
    (rp : Rat) (rn : Nat) (prompt : List Char) (sample_len : Nat)
    (resp : List Char) (g : Nat)
    (h : run env m0 s0 rp rn prompt sample_len = .ok (resp, g)) :
    g ≤ sample_len := by
  unfold run at h
  split at h
  · cases h
  · rename_i tokens henc
    split at h
    · cases h
    · split at h
      · cases h
      · rename_i eos hvocab
        split at h
        · cases h
        · rename_i s hloop
          rw [Except.ok.injEq, Prod.mk.injEq] at h
          obtain ⟨-, hg⟩ := h
          subst hg
          have hb :=
            (runLoop_some env rp rn eos sample_len 0 ⟨tokens, 0, [], m0, s0⟩ s
              hloop).1
          simpa using hb

/-- C2 witness: `testEnv` never samples a stop token, so a budget of 2
produces exactly 2 generated tokens, within the bound. -/
theorem run_generated_le_witness : (2 : Nat) ≤ 2 :=
  run_generated_le testEnv () () 1 64 ['p'] 2 ['a', 'a'] 2 (by rfl)

/-- C3: if the very first sampled token is a stop token (the first `step`
reports termination), `run` returns with generated-token count 1 and an empty
response: the stop token contributes no decoded text and the trim of the
empty buffer is empty. -/
theorem run_first_stop {σ τ : Type} (env : Env σ τ) (m0 : σ) (s0 : τ)
    (rp : Rat) (rn : Nat) (prompt : List Char) (sample_len : Nat)
    (ts : List Nat) (eos : Nat) (s' : LoopState σ τ)
    (henc : env.encode prompt = some ts) (hne : ts.isEmpty = false)
    (hvocab : env.getVocab endOfTextKey = some eos)
    (hstep : step env rp rn eos 0 ⟨ts, 0, [], m0, s0⟩ = some (s', true))
    (hlen : 1 ≤ sample_len) :
    run env m0 s0 rp rn prompt sample_len = .ok ([], 1) := by
  obtain ⟨k, rfl⟩ : ∃ k, sample_len = k + 1 := ⟨sample_len - 1, by omega⟩
  obtain ⟨hgen, -, hresp⟩ :=
    step_some env rp rn eos 0 ⟨ts, 0, [], m0, s0⟩ s' true hstep
  simp only [run, henc, hne, Bool.false_eq_true, if_false, hvocab, runLoop,
    hstep]
  rw [hresp rfl, hgen]
  rfl

/-- C3 witness: under `stopEnv` the first sample is the end-of-text id, and
`run` returns the empty response with count 1. -/
theorem run_first_stop_witness :
    run stopEnv () () 1 64 ['p'] 3 = .ok ([], 1) :=
  run_first_stop stopEnv () () 1 64 ['p'] 3 [10, 11] 7
    ⟨[10, 11, 7], 1, [], (), ()⟩ (by rfl) (by rfl) (by rfl) (by rfl)
    (by decide)

/-- C4: `answer_with_context` with an empty references list returns the fixed
literal message as a successful result.  The environment `env` (tokenizer and
model capabilities) and the prompt assembler `assemble` are universally
quantified and absent from the result, so none of them is consulted: the
result is the same even for capabilities that always fail. -/
theorem answer_with_context_empty {σ τ : Type} (env : Env σ τ) (m0 : σ)
    (s0 : τ) (assemble : List Char → List VectorIndex → List Char)
    (query : List Char) :
    answer_with_context env m0 s0 assemble query [] = .ok noContentMessage :=
  rfl

/-- C5: a prompt that encodes to the empty token sequence makes `run` fail
with `emptyPrompt`; the conclusion holds for every model capability in `env`
(including one that always fails), so the model is never invoked, and the
error carries no partial response. -/
theorem run_empty_prompt {σ τ : Type} (env : Env σ τ) (m0 : σ) (s0 : τ)
    (rp : Rat) (rn : Nat) (prompt : List Char) (sample_len : Nat)
    (h : env.encode prompt = some []) :
    run env m0 s0 rp rn prompt sample_len = .error .emptyPrompt := by
  simp [run, h]

/-- C5 witness: under `emptyEncodeEnv` the run fails with `emptyPrompt`. -/
theorem run_empty_prompt_witness :
    run emptyEncodeEnv () () 1 64 ['p'] 5 = .error .emptyPrompt :=
  run_empty_prompt emptyEncodeEnv () () 1 64 ['p'] 5 (by rfl)

/-- C6: when the vocabulary lookup of the end-of-text key misses, `run` fails
with `missingStopToken`; the conclusion holds for every model capability in
`env`, so no decode step executes. -/
theorem run_missing_stop_token {σ τ : Type} (env : Env σ τ) (m0 : σ) (s0 : τ)
    (rp : Rat) (rn : Nat) (prompt : List Char) (sample_len : Nat)
    (ts : List Nat) (henc : env.encode prompt = some ts)
    (hne : ts.isEmpty = false) (hv : env.getVocab endOfTextKey = none) :
    run env m0 s0 rp rn prompt sample_len = .error .missingStopToken := by
  simp [run, henc, hne, hv]

/-- C6 witness: under `noVocabEnv` the run fails with `missingStopToken`. -/
theorem run_missing_stop_token_witness :
    run noVocabEnv () () 1 64 ['p'] 5 = .error .missingStopToken :=
  run_missing_stop_token noVocabEnv () () 1 64 ['p'] 5 [10, 11] (by rfl)
    (by rfl) (by rfl)

/-- C7: with `repeat_penalty = 1` the score vector is passed through
unchanged (`penalize` is the identity), and `step` does not consult the
repeat-penalty capability at all: replacing it by any other function leaves
the step unchanged. -/
theorem penalize_passthrough {σ τ : Type} (env : Env σ τ)
    (f : List Int → Rat → List Nat → Option (List Int)) (rp : Rat)
    (rn eos index : Nat) (tokens : List Nat) (logits : List Int)
    (s : LoopState σ τ) (h : rp = 1) :
    penalize env rp rn tokens logits = some logits ∧
      step { env with applyRepeatPenalty := f } rp rn eos index s =
        step env rp rn eos index s := by
  subst h
  refine ⟨by simp [penalize], ?_⟩
  simp [step, penalize]

/-- C7 witness: concrete pass-through of the logits `[3, 4]` and concrete
step-equality under a sabotaged penalty capability. -/
theorem penalize_passthrough_witness :
    penalize testEnv 1 64 [1, 2] [3, 4] = some [3, 4] ∧
      step { testEnv with applyRepeatPenalty := fun _ _ _ => none } 1 64 7 0
          ⟨[10, 11], 0, [], (), ()⟩ =
        step testEnv 1 64 7 0 ⟨[10, 11], 0, [], (), ()⟩ :=
  penalize_passthrough testEnv (fun _ _ _ => none) 1 64 7 0 [1, 2] [3, 4]
    ⟨[10, 11], 0, [], (), ()⟩ (by rfl)

/-- C8: every successful `run` returns a response with no leading or trailing
whitespace. -/
theorem run_trimmed {σ τ : Type} (env : Env σ τ) (m0 : σ) (s0 : τ)
    (rp : Rat) (rn : Nat) (prompt : List Char) (sample_len : Nat)
    (resp : List Char) (g : Nat)
    (h : run env m0 s0 rp rn prompt sample_len = .ok (resp, g)) :
    hasNoEdgeWhitespace resp = true := by
  unfold run at h
  split at h
  · cases h
  · split at h
    · cases h
    · split at h
      · cases h
      · split at h
        · cases h
        · rename_i s hloop
          rw [Except.ok.injEq, Prod.mk.injEq] at h
          obtain ⟨hr, -⟩ := h
          rw [← hr]
          exact rustTrim_hasNoEdge s.response

/-- C8 witness: the two-step `testEnv` run returns `"aa"`, which has no edge
whitespace. -/
theorem run_trimmed_witness : hasNoEdgeWhitespace ['a', 'a'] = true :=
  run_trimmed testEnv () () 1 64 ['p'] 2 ['a', 'a'] 2 (by rfl)

/-- C9: the token sequence is append-only: every successful `step` appends
exactly one sampled token, and across any number of loop iterations the
sequence only ever gains a suffix — no element is removed or modified and the
sequence never shrinks. -/
theorem tokens_append_only {σ τ : Type} (env : Env σ τ) (rp : Rat)
    (rn eos fuel index : Nat) (s s' sa sb : LoopState σ τ) (b : Bool)
    (hstep : step env rp rn eos index sa = some (sb, b))
    (hloop : runLoop env rp rn eos fuel index s = some s') :
    (∃ t, sb.tokens = sa.tokens ++ [t]) ∧
      (∃ ext, s'.tokens = s.tokens ++ ext) :=
  ⟨(step_some env rp rn eos index sa sb b hstep).2.1,
   (runLoop_some env rp rn eos fuel index s s' hloop).2⟩

/-- C9 witness: one concrete step appends exactly `[5]`, and a two-step loop
extends `[10, 11]` to `[10, 11, 5, 5]` without touching the existing
elements. -/
theorem tokens_append_only_witness :
    (∃ t, ([10, 11, 5] : List Nat) = [10, 11] ++ [t]) ∧
      (∃ ext, ([10, 11, 5, 5] : List Nat) = [10, 11] ++ ext) :=
  tokens_append_only testEnv 1 64 7 2 0 ⟨[10, 11], 0, [], (), ()⟩
    ⟨[10, 11, 5, 5], 2, ['a', 'a'], (), ()⟩ ⟨[10, 11], 0, [], (), ()⟩
    ⟨[10, 11, 5], 1, ['a'], (), ()⟩ false (by rfl) (by rfl)

/-- C10: whenever the sampler draws the literal token id 198, `step` reports
termination immediately, for every end-of-text id `eos` and every
configuration (`rp`, `rn`): the sentinel is hardcoded and independent of the
vocabulary lookup, and the terminating token is never decoded into the
response. -/
theorem sentinel_198_stops {σ τ : Type} (env : Env σ τ) (rp : Rat)
    (rn eos index : Nat) (s : LoopState σ τ) (raw : List Int) (m' : σ)
    (logits : List Int) (st' : τ)
    (hf : env.forward s.mstate (contextWindow index s.tokens) = some (raw, m'))
    (hp : penalize env rp rn s.tokens (env.narrow raw) = some logits)
    (hs : env.sample s.sstate logits = some (198, st')) :
    step env rp rn eos index s =
      some (⟨s.tokens ++ [198], s.generated + 1, s.response, m', st'⟩, true) := by
  simp [step, hf, hp, hs, isStopToken]

/-- C10 witness: under `nlEnv` (sampler fixed to 198) with end-of-text id 7,
the first step terminates at once with the 198 token appended and the
response untouched. -/
theorem sentinel_198_stops_witness :
    step nlEnv 1 64 7 0 ⟨[10, 11], 0, [], (), ()⟩ =
      some (⟨[10, 11, 198], 1, [], (), ()⟩, true) :=
  sentinel_198_stops nlEnv 1 64 7 0 ⟨[10, 11], 0, [], (), ()⟩ [3, 1, 2] ()
    [3, 1, 2] () (by rfl) (by rfl) (by rfl)

end Tera
